import Mathlib

/-
Shallow embedding of the mbtiles-go read-only MBTiles accessor (mbtiles.go).

The SQLite engine, the filesystem and the database/sql layer are external
collaborators; they are modelled by explicit data (lists of schema-object
names, tile rows and metadata rows) plus boolean fault flags for the query
paths that can fail at driver level.  Byte sequences are lists of naturals,
times are nanosecond counts as integers, and float64 values produced by the
metadata decoder are modelled as exact rationals (every value exercised below
is a small dyadic rational, where the model and IEEE float64 agree).
-/

set_option maxHeartbeats 1000000

deriving instance DecidableEq for Except

namespace Mbtiles

/-- Tile payload formats recognized by the format sniffer: raster PNG, JPG and
WEBP, the gzip transport encoding, vector protobuf, and an UNKNOWN sentinel. -/
inductive TileFormat where
  | UNKNOWN
  | GZIP
  | PNG
  | JPG
  | WEBP
  | PBF
  deriving DecidableEq

/-- Error outcomes of the accessor.  Each constructor corresponds to one error
the Go code can return: the handle-level errors produced in mbtiles.go itself
and the driver-level errors produced by database/sql (a closed prepared
statement, a closed pool, a generic failed query). -/
inductive Err where
  | notFound (path : String)
  | incompleteContainer
  | openError
  | invalidContainer
  | unrecognizedFormat
  | closedHandle
  | stmtClosed
  | dbClosed
  | queryError
  | decodeError (item : String)
  deriving DecidableEq

/-- One row of the tiles table: zoom_level, tile_column, tile_row, tile_data. -/
structure TileRow where
  zoom : Int
  col : Int
  row : Int
  data : List Nat
  deriving DecidableEq

/-- One result row of the metadata query, as seen by the Go scan loop.
scanOk carries the two scanned columns; scanFail models a rows.Scan call that
returns an error and assigns nothing to the destinations (database/sql checks
the destination count against the column count before assigning anything). -/
inductive MetaRow where
  | scanOk (key value : String)
  | scanFail
  deriving DecidableEq

/-- Decoded metadata values: plain strings, integers parsed by strconv.Atoi,
and ordered float lists parsed by parseFloats (floats modelled as rationals). -/
inductive MetaValue where
  | str (s : String)
  | int (n : Int)
  | floats (xs : List Rat)
  deriving DecidableEq

/-- The decoded metadata map, modelled as an association list where an insert
overwrites the existing binding for the key (Go map assignment semantics). -/
abbrev Metadata := List (String × MetaValue)

/-- A model of json.Unmarshal restricted to what ReadMetadata needs: a parser
from the raw string to the top-level fields of the document, or none when the
document is malformed.  ReadMetadata is parametrized by it, since
encoding/json is an external collaborator. -/
abbrev JsonParse := String → Option (List (String × MetaValue))

/-- The relevant content of the SQLite database behind an open pool: the
schema-object names listed in sqlite_master, the tiles table in scan order,
the rows produced by the metadata query in scan order, and fault flags for
each query the Go code issues. -/
structure DB where
  master : List String
  tiles : List TileRow
  metaRows : List MetaRow
  masterQueryFails : Bool
  metaQueryFails : Bool
  zoomQueryFails : Bool
  tileQueryFails : Bool
  deriving DecidableEq

/-- A prepared statement: it targets a database and can be closed.  Closing a
statement does not clear the MBtiles struct field that points to it. -/
structure Stmt where
  d : DB
  closed : Bool
  deriving DecidableEq

/-- A connection pool (sql.DB): it targets a database and can be closed. -/
structure Pool where
  d : DB
  closed : Bool
  deriving DecidableEq

/-- The MBtiles handle struct.  pool and tileStmt are pointer fields (none
models a nil pointer of a zero-valued struct); a Go *MBtiles value itself is
modelled as Option MBtiles at the call sites, so that a nil receiver is
representable. -/
structure MBtiles where
  filename : String
  pool : Option Pool
  tileStmt : Option Stmt
  format : TileFormat
  timestamp : Int
  tilesize : Nat
  deriving DecidableEq

/-- Observable effects of Open, in order, used to state that the journal check
happens before any driver-level open is attempted. -/
inductive Event where
  | statPath
  | statJournal
  | driverOpen
  | validateQ
  | sniffQ
  | prepareQ
  deriving DecidableEq

/-- The environment Open runs in: the set of existing file paths, the
container's modification time in nanoseconds, the database content behind the
path, and fault flags for sql.Open and statement preparation. -/
structure OpenEnv where
  fsFiles : List String
  modNs : Int
  d : DB
  sqlOpenFails : Bool
  prepareFails : Bool
  deriving DecidableEq

/-- Outcome of calling Close: either the updated handle or a runtime panic
(the nil-pointer dereference Go raises when the receiver is nil). -/
inductive CloseOutcome where
  | ok (h : MBtiles)
  | panic
  deriving DecidableEq

/-- Splits a leading run of decimal digits from a character list. -/
def splitDigits : List Char → List Char × List Char
  | [] => ([], [])
  | c :: rest =>
    if c.isDigit then
      let p := splitDigits rest
      (c :: p.1, p.2)
    else ([], c :: rest)

/-- Numeric value of a list of decimal digit characters. -/
def digitsToNat (ds : List Char) : Nat :=
  ds.foldl (fun a c => a * 10 + (c.toNat - 48)) 0

/-- Consumes an optional leading sign; returns whether it was a minus sign. -/
def splitSign : List Char → Bool × List Char
  | '+' :: r => (false, r)
  | '-' :: r => (true, r)
  | cs => (false, cs)

/-- Digit-run parser for strconv.Atoi: all remaining characters must be
digits and there must be at least one. -/
def atoiDigits (cs : List Char) : Option Nat :=
  match cs with
  | [] => none
  | _ =>
    let p := splitDigits cs
    if p.2.isEmpty then some (digitsToNat p.1) else none

/-- Model of strconv.Atoi: optional sign followed by one or more decimal
digits; anything else is an error (none). -/
def atoi (s : String) : Option Int :=
  let p := splitSign s.toList
  match atoiDigits p.2 with
  | none => none
  | some n => some (if p.1 then -(n : Int) else (n : Int))

/-- Mantissa of a decimal numeral: digits, optionally with a decimal point
and further digits; at least one digit must be present on one of the sides.
Returns the digit string read as an integer, the number of fractional digits,
and the unconsumed characters. -/
def parseMantissa (cs : List Char) : Option (Nat × Nat × List Char) :=
  let ip := splitDigits cs
  match ip.2 with
  | '.' :: r2 =>
    let fp := splitDigits r2
    if ip.1.isEmpty && fp.1.isEmpty then none
    else some (digitsToNat (ip.1 ++ fp.1), fp.1.length, fp.2)
  | _ => if ip.1.isEmpty then none else some (digitsToNat ip.1, 0, ip.2)

/-- Exponent part after the mantissa: either nothing (shift 0), or e/E with
an optional sign and one or more digits consuming the rest of the string. -/
def parseExpShift : List Char → Option Int
  | [] => some 0
  | 'e' :: r =>
    let sp := splitSign r
    match atoiDigits sp.2 with
    | none => none
    | some e => some (if sp.1 then -(e : Int) else (e : Int))
  | 'E' :: r =>
    let sp := splitSign r
    match atoiDigits sp.2 with
    | none => none
    | some e => some (if sp.1 then -(e : Int) else (e : Int))
  | _ => none

/-- The exact rational value of a signed decimal mantissa m scaled by a power
of ten: (plus or minus m) times 10 to the shift. -/
def decValue (neg : Bool) (m : Nat) (shift : Int) : Rat :=
  let n : Int := if neg then -(m : Int) else (m : Int)
  if 0 ≤ shift then Rat.divInt (n * 10 ^ shift.toNat) 1
  else Rat.divInt n (10 ^ (-shift).toNat)

/-- Model of strconv.ParseFloat on decimal numerals, with exact rational
values: optional sign, decimal mantissa, optional decimal exponent. -/
def parseFloat (s : String) : Option Rat :=
  let sp := splitSign s.toList
  match parseMantissa sp.2 with
  | none => none
  | some mr =>
    match parseExpShift mr.2.2 with
    | none => none
    | some e => some (decValue sp.1 mr.1 (e - (mr.2.1 : Int)))

/-- Drops the leading whitespace characters of a character list. -/
def dropSpaceLead : List Char → List Char
  | [] => []
  | c :: r => if c.isWhitespace then dropSpaceLead r else c :: r

/-- Model of strings.TrimSpace: removes leading and trailing whitespace. -/
def trimSpace (s : String) : String :=
  String.mk ((dropSpaceLead (dropSpaceLead s.toList).reverse).reverse)

/-- Splitting on commas, accumulating the current field in reverse. -/
def splitCommaAux : List Char → List Char → List String
  | [], acc => [String.mk acc.reverse]
  | c :: r, acc =>
    if c = ',' then String.mk acc.reverse :: splitCommaAux r []
    else splitCommaAux r (c :: acc)

/-- Model of strings.Split with the comma separator: the fields between
commas, in order; the empty string yields one empty field. -/
def splitComma (s : String) : List String :=
  splitCommaAux s.toList []

/-- The recursion of parseFloats over the comma-separated fields: each field
is whitespace-trimmed and parsed; the first failing field aborts with an
error naming the whole input string. -/
def parseFloatsAux (str : String) : List String → Except Err (List Rat)
  | [] => .ok []
  | v :: rest =>
    match parseFloat (trimSpace v) with
    | none => .error (.decodeError str)
    | some x =>
      match parseFloatsAux str rest with
      | .ok xs => .ok (x :: xs)
      | .error e => .error e

/-- parseFloats from mbtiles.go: splits the string on commas, trims each
field and parses it as a float, in field order; the first failure is fatal. -/
def parseFloats (str : String) : Except Err (List Rat) :=
  parseFloatsAux str (splitComma str)

/-- Walks the reversed character list of a path and rebuilds the suffix that
starts at the last dot of the final path element (filepath.Ext): stops with
no extension at a path separator or at the start of the string. -/
def extRevAux : List Char → List Char → List Char
  | [], _ => []
  | c :: rest, acc =>
    if c = '/' then []
    else if c = '.' then '.' :: acc
    else extRevAux rest (c :: acc)

/-- Model of filepath.Ext: the suffix beginning at the final dot in the final
slash-separated element of the path, empty if there is no dot. -/
def filepathExt (p : String) : String :=
  String.mk (extRevAux p.toList.reverse [])

/-- FindMBtiles from mbtiles.go, over the walk order of visited paths and the
set of existing files: a visited path with an adjacent -journal file is
skipped; otherwise it is kept when its extension is .mbtiles. -/
def findMBtiles (fs : List String) : List String → List String
  | [] => []
  | p :: rest =>
    if (p ++ "-journal") ∈ fs then findMBtiles fs rest
    else if filepathExt p = ".mbtiles" then p :: findMBtiles fs rest
    else findMBtiles fs rest

/-- Whether the byte sequence starts with the given magic signature. -/
def startsWithSig : List Nat → List Nat → Bool
  | [], _ => true
  | _ :: _, [] => false
  | s :: ss, d :: ds => s == d && startsWithSig ss ds

/-- Modelled from the spec: detectTileFormat is not under src/ (only its
callers are).  It compares the leading bytes against the known magic
signatures in a fixed priority order, first match wins, and reports no match
as a classification failure: the PNG signature, the JPG SOI marker, the RIFF
header of WEBP, and the gzip magic bytes 0x1F 0x8B. -/
def detectTileFormat (data : List Nat) : Option TileFormat :=
  if startsWithSig [0x89, 0x50, 0x4E, 0x47, 0x0D, 0x0A, 0x1A, 0x0A] data then some .PNG
  else if startsWithSig [0xFF, 0xD8, 0xFF] data then some .JPG
  else if startsWithSig [0x52, 0x49, 0x46, 0x46] data then some .WEBP
  else if startsWithSig [0x1F, 0x8B] data then some .GZIP
  else none

/-- Big-endian 32-bit value of four bytes. -/
def beU32 (b0 b1 b2 b3 : Nat) : Nat :=
  ((b0 * 256 + b1) * 256 + b2) * 256 + b3

/-- Modelled from the spec: detectTileSize is not under src/.  Only PNG
carries an embedded dimension (the big-endian 32-bit IHDR width at bytes
16..19); a PNG truncated before the width field is a failure, and every other
format reports size 0 meaning not detected. -/
def detectTileSize (fmt : TileFormat) (data : List Nat) : Except Err Nat :=
  match fmt with
  | .PNG =>
    match data.get? 16, data.get? 17, data.get? 18, data.get? 19 with
    | some b0, some b1, some b2, some b3 => .ok (beU32 b0 b1 b2 b3)
    | _, _, _, _ => .error .unrecognizedFormat
  | _ => .ok 0

/-- getTileFormat from mbtiles.go: reads the first tile row (no row is a
query error), classifies its bytes, and reclassifies GZIP as PBF. -/
def getTileFormat (d : DB) : Except Err TileFormat :=
  match d.tiles.head? with
  | none => .error .queryError
  | some t =>
    match detectTileFormat t.data with
    | none => .error .unrecognizedFormat
    | some fmt => .ok (if fmt = .GZIP then .PBF else fmt)

/-- getTileFormatAndSize from mbtiles.go: reads the first tile row, classifies
its bytes, reclassifies GZIP as PBF, then detects the tile size. -/
def getTileFormatAndSize (d : DB) : Except Err (TileFormat × Nat) :=
  match d.tiles.head? with
  | none => .error .queryError
  | some t =>
    match detectTileFormat t.data with
    | none => .error .unrecognizedFormat
    | some fmt0 =>
      let fmt := if fmt0 = .GZIP then .PBF else fmt0
      match detectTileSize fmt t.data with
      | .error e => .error e
      | .ok sz => .ok (fmt, sz)

/-- validateRequiredTables from mbtiles.go: counts the sqlite_master rows
whose name is tiles or metadata and fails unless the count is at least 2. -/
def validateRequiredTables (d : DB) : Except Err Unit :=
  if d.masterQueryFails then .error .queryError
  else if (d.master.filter (fun n => n == "tiles" || n == "metadata")).length < 2 then
    .error .invalidContainer
  else .ok ()

/-- Nanoseconds per second, the duration passed to Round in Open. -/
def nsPerSecond : Int := 1000000000

/-- Model of Go time.Time.Round for a positive duration d: rounds t to the
nearest multiple of d, with halfway values rounding up (away from zero). -/
def timeRound (t d : Int) : Int :=
  let r := t % d
  if 2 * r < d then t - r else t + (d - r)

/-- Spec-side definition, for comparison only: the last-modified time
truncated to whole seconds (rounded down), as the spec's wording states. -/
def truncToSecond (t : Int) : Int :=
  t - t % nsPerSecond

/-- Open from mbtiles.go, returning the result together with the trace of
external effects in order: stat of the path, stat of the sibling journal
file, the driver-level sql.Open, the validation query, the sniff query and
the statement preparation.  On success the handle holds an open pool and an
open prepared statement, the detected format and size, and the modification
time rounded to the second. -/
def openGo (env : OpenEnv) (path : String) : Except Err MBtiles × List Event :=
  if path ∉ env.fsFiles then (.error (.notFound path), [.statPath])
  else if (path ++ "-journal") ∈ env.fsFiles then
    (.error .incompleteContainer, [.statPath, .statJournal])
  else if env.sqlOpenFails then
    (.error .openError, [.statPath, .statJournal, .driverOpen])
  else
    match validateRequiredTables env.d with
    | .error e => (.error e, [.statPath, .statJournal, .driverOpen, .validateQ])
    | .ok _ =>
      match getTileFormatAndSize env.d with
      | .error e => (.error e, [.statPath, .statJournal, .driverOpen, .validateQ, .sniffQ])
      | .ok fs =>
        if env.prepareFails then
          (.error .openError, [.statPath, .statJournal, .driverOpen, .validateQ, .sniffQ, .prepareQ])
        else
          (.ok { filename := path
                 pool := some { d := env.d, closed := false }
                 tileStmt := some { d := env.d, closed := false }
                 format := fs.1
                 timestamp := timeRound env.modNs nsPerSecond
                 tilesize := fs.2 },
           [.statPath, .statJournal, .driverOpen, .validateQ, .sniffQ, .prepareQ])

/-- The effect of Close on a non-nil handle: it closes the prepared statement
and the pool when present, but leaves both struct fields set. -/
def closeSome (h : MBtiles) : MBtiles :=
  { h with
    tileStmt := h.tileStmt.map (fun s => { s with closed := true })
    pool := h.pool.map (fun p => { p with closed := true }) }

/-- Close from mbtiles.go.  The method has no nil-receiver guard, so calling
it on a nil *MBtiles dereferences nil and panics. -/
def close : Option MBtiles → CloseOutcome
  | none => .panic
  | some h => .ok (closeSome h)

/-- ReadTile from mbtiles.go: a nil receiver or nil statement field yields
the closed-database error; executing a closed prepared statement yields the
driver's statement-closed error; otherwise the point lookup either finds a
row (its payload, nil error), finds no row (nil payload, nil error), or
surfaces the query failure as an error. -/
def readTile (db : Option MBtiles) (z x y : Int) : Except Err (Option (List Nat)) :=
  match db with
  | none => .error .closedHandle
  | some h =>
    match h.tileStmt with
    | none => .error .closedHandle
    | some stmt =>
      if stmt.closed then .error .stmtClosed
      else if stmt.d.tileQueryFails then .error .queryError
      else
        match stmt.d.tiles.find? (fun t => t.zoom == z && t.col == x && t.row == y) with
        | some t => .ok (some t.data)
        | none => .ok none

/-- Inserts or overwrites one key in the metadata map. -/
def upsert (m : Metadata) (k : String) (v : MetaValue) : Metadata :=
  match m with
  | [] => [(k, v)]
  | kv :: rest => if kv.1 = k then (k, v) :: rest else kv :: upsert rest k v

/-- Looks a key up in the metadata map. -/
def lookupMeta (m : Metadata) (k : String) : Option MetaValue :=
  (m.find? (fun kv => kv.1 == k)).map Prod.snd

/-- Merges the top-level fields of a parsed json document into the map, in
document order, overwriting existing keys (json.Unmarshal into a live map). -/
def mergeDoc (m : Metadata) (doc : List (String × MetaValue)) : Metadata :=
  doc.foldl (fun acc kv => upsert acc kv.1 kv.2) m

/-- The switch body of the ReadMetadata scan loop for one key/value pair:
minzoom and maxzoom parse as integers, bounds and center as float lists, json
is parsed and merged, any other key is stored verbatim; parse failures are
fatal to the whole call. -/
def processPair (jp : JsonParse) (m : Metadata) (k v : String) : Except Err Metadata :=
  if k = "maxzoom" ∨ k = "minzoom" then
    match atoi v with
    | some n => .ok (upsert m k (.int n))
    | none => .error (.decodeError k)
  else if k = "bounds" ∨ k = "center" then
    match parseFloats v with
    | .ok xs => .ok (upsert m k (.floats xs))
    | .error e => .error e
  else if k = "json" then
    match jp v with
    | some doc => .ok (mergeDoc m doc)
    | none => .error (.decodeError "json")
  else .ok (upsert m k (.str v))

/-- The ReadMetadata scan loop.  The scan result is ignored: a row whose scan
fails is processed with the key and value left over from the previously
scanned row (the loop variables), which start as empty strings. -/
def metaLoop (jp : JsonParse) : List MetaRow → String → String → Metadata → Except Err Metadata
  | [], _, _, m => .ok m
  | .scanOk k v :: rest, _, _, m =>
    match processPair jp m k v with
    | .ok m2 => metaLoop jp rest k v m2
    | .error e => .error e
  | .scanFail :: rest, k, v, m =>
    match processPair jp m k v with
    | .ok m2 => metaLoop jp rest k v m2
    | .error e => .error e

/-- The min/max zoom inference query over the tiles table.  On an empty table
SQLite returns a single row of NULLs and scanning them into Go ints fails, so
the empty table behaves like a failed query (none). -/
def minMaxZoom (ts : List TileRow) : Option (Int × Int) :=
  match (ts.map TileRow.zoom).min?, (ts.map TileRow.zoom).max? with
  | some mn, some mx => some (mn, mx)
  | _, _ => none

/-- ReadMetadata from mbtiles.go: a nil receiver or nil pool field yields the
closed-database error; querying a closed pool yields the driver's
database-closed error; otherwise the filtered metadata rows are decoded by
the scan loop, and afterwards, when minzoom or maxzoom is missing, the zoom
range of the tiles table is queried and both keys are assigned the inferred
values; a failure of that inference query returns the partial map with a nil
error. -/
def readMetadata (jp : JsonParse) (db : Option MBtiles) : Except Err Metadata :=
  match db with
  | none => .error .closedHandle
  | some h =>
    match h.pool with
    | none => .error .closedHandle
    | some p =>
      if p.closed then .error .dbClosed
      else if p.d.metaQueryFails then .error .queryError
      else
        match metaLoop jp p.d.metaRows "" "" [] with
        | .error e => .error e
        | .ok m =>
          if (lookupMeta m "minzoom").isSome && (lookupMeta m "maxzoom").isSome then .ok m
          else if p.d.zoomQueryFails then .ok m
          else
            match minMaxZoom p.d.tiles with
            | none => .ok m
            | some mm => .ok (upsert (upsert m "minzoom" (.int mm.1)) "maxzoom" (.int mm.2))

/-- GetFilename accessor. -/
def GetFilename (h : MBtiles) : String := h.filename

/-- GetTileFormat accessor. -/
def GetTileFormatAcc (h : MBtiles) : TileFormat := h.format

/-- GetTileSize accessor. -/
def GetTileSize (h : MBtiles) : Nat := h.tilesize

/-- GetTimestamp accessor. -/
def GetTimestamp (h : MBtiles) : Int := h.timestamp

/-- Whether an Except value is a success. -/
def okB {α : Type} : Except Err α → Bool
  | .ok _ => true
  | .error _ => false

/-- Whether processPair succeeds on this key/value pair; success does not
depend on the map being decoded into. -/
def decodeOk (jp : JsonParse) (k v : String) : Bool :=
  if k = "maxzoom" ∨ k = "minzoom" then (atoi v).isSome
  else if k = "bounds" ∨ k = "center" then okB (parseFloats v)
  else if k = "json" then (jp v).isSome
  else true

/-- A json parser that rejects every document; concrete instantiation of the
JsonParse parameter. -/
def jp0 : JsonParse := fun _ => none

/-- A gzip-compressed tile payload: the gzip magic bytes and a deflate byte. -/
def gzipBytes : List Nat := [0x1F, 0x8B, 0x08]

/-- A well-formed database: both required tables, one gzip tile at zoom 0,
an empty metadata table, and no query faults. -/
def dbFix : DB :=
  { master := ["tiles", "metadata"]
    tiles := [{ zoom := 0, col := 0, row := 0, data := gzipBytes }]
    metaRows := []
    masterQueryFails := false
    metaQueryFails := false
    zoomQueryFails := false
    tileQueryFails := false }

/-- An environment holding one valid container file with modification time
1.6 seconds after the epoch. -/
def envFix : OpenEnv :=
  { fsFiles := ["a.mbtiles"]
    modNs := 1600000000
    d := dbFix
    sqlOpenFails := false
    prepareFails := false }

/-- The handle Open returns for envFix: note the timestamp 2000000000, the
1.6 s modification time rounded up to the nearest second. -/
def hFix : MBtiles :=
  { filename := "a.mbtiles"
    pool := some { d := dbFix, closed := false }
    tileStmt := some { d := dbFix, closed := false }
    format := .PBF
    timestamp := 2000000000
    tilesize := 0 }

/-- A database whose metadata table carries minzoom=5 but no maxzoom, over
tiles present only at zooms 3 and 9. -/
def dbZoomInfer : DB :=
  { dbFix with
    tiles := [{ zoom := 3, col := 0, row := 0, data := gzipBytes },
              { zoom := 9, col := 1, row := 1, data := gzipBytes }]
    metaRows := [.scanOk "minzoom" "5"] }

/-- An open handle over dbZoomInfer. -/
def hZoomInfer : MBtiles :=
  { hFix with
    pool := some { d := dbZoomInfer, closed := false }
    tileStmt := some { d := dbZoomInfer, closed := false } }

/-- A database with tiles only at zooms 3 and 9 and no metadata rows at all. -/
def dbZoomBoth : DB :=
  { dbZoomInfer with metaRows := [] }

/-- An open handle over dbZoomBoth. -/
def hZoomBoth : MBtiles :=
  { hFix with
    pool := some { d := dbZoomBoth, closed := false }
    tileStmt := some { d := dbZoomBoth, closed := false } }

/-- A database whose sqlite_master lists two objects named tiles (for
example a tiles table plus a trigger named tiles) and no metadata object. -/
def dbDup : DB :=
  { dbFix with master := ["tiles", "tiles"] }

/-- An environment holding a container backed by dbDup. -/
def envDup : OpenEnv :=
  { envFix with fsFiles := ["b.mbtiles"], d := dbDup }

/-- The handle Open returns for envDup. -/
def hDup : MBtiles :=
  { hFix with
    filename := "b.mbtiles"
    pool := some { d := dbDup, closed := false }
    tileStmt := some { d := dbDup, closed := false } }

/-- An environment in which the container file has a sibling journal file. -/
def envJournal : OpenEnv :=
  { envFix with fsFiles := ["a.mbtiles", "a.mbtiles-journal"] }

/-- An open handle whose metadata table carries a bounds row. -/
def hBounds : MBtiles :=
  { hFix with
    pool := some { d := { dbFix with metaRows := [.scanOk "bounds" "-1.5, 2.25,10,-3"] }, closed := false } }

/-- An open handle over an empty tiles table whose single metadata row fails
to scan. -/
def hAllFail : MBtiles :=
  { hFix with
    pool := some { d := { dbFix with tiles := [], metaRows := [.scanFail] }, closed := false } }

/-- Inversion of a successful Open: the returned handle is exactly the record
built in the final branch, with an open pool and an open prepared statement
over the environment's database and the rounded modification time. -/
theorem openGo_ok_inv {env : OpenEnv} {path : String} {h : MBtiles} {ev : List Event}
    (hopen : openGo env path = (.ok h, ev)) :
    ∃ fs, getTileFormatAndSize env.d = .ok fs ∧
      h = { filename := path
            pool := some { d := env.d, closed := false }
            tileStmt := some { d := env.d, closed := false }
            format := fs.1
            timestamp := timeRound env.modNs nsPerSecond
            tilesize := fs.2 } := by
  unfold openGo at hopen
  split at hopen
  · simp at hopen
  split at hopen
  · simp at hopen
  split at hopen
  · simp at hopen
  split at hopen
  · simp at hopen
  split at hopen
  · simp at hopen
  rename_i fs hfs
  split at hopen
  · simp at hopen
  · simp only [Prod.mk.injEq, Except.ok.injEq] at hopen
    exact ⟨fs, hfs, hopen.1.symm⟩

/-- Two distinct members force a list length of at least two. -/
theorem two_mem_two_le_length {α : Type} [DecidableEq α] {a b : α} {l : List α}
    (ha : a ∈ l) (hb : b ∈ l) (hne : a ≠ b) : 2 ≤ l.length := by
  have hsub : ({a, b} : Finset α) ⊆ l.toFinset := by
    intro x hx
    rcases Finset.mem_insert.mp hx with rfl | hx2
    · exact List.mem_toFinset.mpr ha
    · rcases Finset.mem_singleton.mp hx2 with rfl
      exact List.mem_toFinset.mpr hb
  calc 2 = ({a, b} : Finset α).card := (Finset.card_pair hne).symm
    _ ≤ l.toFinset.card := Finset.card_le_card hsub
    _ ≤ l.length := l.toFinset_card_le

/-- A duplicate-free list all of whose members are equal has length at most
one. -/
theorem nodup_all_eq_length_le_one {α : Type} {l : List α} {a : α}
    (hnd : l.Nodup) (hall : ∀ x ∈ l, x = a) : l.length ≤ 1 := by
  match l with
  | [] => simp
  | [x] => simp
  | x :: y :: t =>
    have hx : x = a := hall x (by simp)
    have hy : y = a := hall y (by simp)
    have hxy : x ≠ y := by
      have hc := List.nodup_cons.mp hnd
      intro he
      exact hc.1 (he ▸ List.mem_cons_self y t)
    exact absurd (hx.trans hy.symm) hxy

/-- Success of processPair is exactly decodeOk of the pair, independently of
the metadata map being decoded into. -/
theorem processPair_okB (jp : JsonParse) (m : Metadata) (k v : String) :
    okB (processPair jp m k v) = decodeOk jp k v := by
  unfold processPair decodeOk
  split
  · cases atoi v <;> rfl
  split
  · cases parseFloats v <;> rfl
  split
  · cases jp v <;> rfl
  · rfl

/-- A pair with decodeOk yields some successor map from processPair. -/
theorem processPair_ok_exists {jp : JsonParse} {m : Metadata} {k v : String}
    (hok : decodeOk jp k v = true) : ∃ m2, processPair jp m k v = .ok m2 := by
  have hb := processPair_okB jp m k v
  rw [hok] at hb
  cases hpp : processPair jp m k v with
  | ok m2 => exact ⟨m2, rfl⟩
  | error e => rw [hpp] at hb; exact absurd hb (by simp [okB])

/-- The scan loop succeeds whenever the carried pair and every successfully
scanned pair decode, regardless of interspersed failed scans. -/
theorem metaLoop_ok_of_all_ok (jp : JsonParse) :
    ∀ (rows : List MetaRow) (k v : String) (m : Metadata),
      decodeOk jp k v = true →
      (∀ k2 v2, MetaRow.scanOk k2 v2 ∈ rows → decodeOk jp k2 v2 = true) →
      ∃ m2, metaLoop jp rows k v m = .ok m2 := by
  intro rows
  induction rows with
  | nil => exact fun k v m _ _ => ⟨m, rfl⟩
  | cons r rest ih =>
    intro k v m hkv hall
    cases r with
    | scanOk k2 v2 =>
      have hok2 : decodeOk jp k2 v2 = true := hall k2 v2 (List.mem_cons_self _ _)
      obtain ⟨m2, hm2⟩ := processPair_ok_exists (m := m) hok2
      have hrest := ih k2 v2 m2 hok2 (fun a b hab => hall a b (List.mem_cons_of_mem _ hab))
      simpa [metaLoop, hm2] using hrest
    | scanFail =>
      obtain ⟨m2, hm2⟩ := processPair_ok_exists (m := m) hkv
      have hrest := ih k v m2 hkv (fun a b hab => hall a b (List.mem_cons_of_mem _ hab))
      simpa [metaLoop, hm2] using hrest

/-- The scan loop fails whenever some successfully scanned row is a bounds
row whose value does not parse as a float list. -/
theorem metaLoop_error_of_bad_bounds (jp : JsonParse) :
    ∀ (rows : List MetaRow) (k v s : String) (m : Metadata) (e : Err),
      MetaRow.scanOk "bounds" s ∈ rows → parseFloats s = .error e →
      ∃ e2, metaLoop jp rows k v m = .error e2 := by
  intro rows
  induction rows with
  | nil => intro k v s m e hmem; exact absurd hmem (by simp)
  | cons r rest ih =>
    intro k v s m e hmem hbad
    rcases List.mem_cons.mp hmem with heq | hm
    · cases heq
      have hpp : processPair jp m "bounds" s = .error e := by
        unfold processPair
        rw [if_neg (by simp), if_pos (Or.inl rfl), hbad]
      exact ⟨e, by simp [metaLoop, hpp]⟩
    · cases r with
      | scanOk k2 v2 =>
        cases hpp : processPair jp m k2 v2 with
        | ok m2 =>
          obtain ⟨e2, he2⟩ := ih k2 v2 s m2 e hm hbad
          exact ⟨e2, by simp [metaLoop, hpp, he2]⟩
        | error e3 => exact ⟨e3, by simp [metaLoop, hpp]⟩
      | scanFail =>
        cases hpp : processPair jp m k v with
        | ok m2 =>
          obtain ⟨e2, he2⟩ := ih k v s m2 e hm hbad
          exact ⟨e2, by simp [metaLoop, hpp, he2]⟩
        | error e3 => exact ⟨e3, by simp [metaLoop, hpp]⟩

/-- Spec-side definition of the field-wise decoding of a float list: trim
and parse each comma-separated field independently, in order, failing when
any single field fails. -/
def parseFieldsSpec : List String → Option (List Rat)
  | [] => some []
  | f :: rest =>
    match parseFloat (trimSpace f), parseFieldsSpec rest with
    | some x, some xs => some (x :: xs)
    | _, _ => none

/-- parseFloatsAux is the field-wise trim-then-parse map over the fields,
with the first failure collapsed to a decode error naming the whole input. -/
theorem parseFloatsAux_eq_spec (str : String) :
    ∀ l : List String,
      parseFloatsAux str l =
        match parseFieldsSpec l with
        | some xs => Except.ok xs
        | none => Except.error (Err.decodeError str) := by
  intro l
  induction l with
  | nil => rfl
  | cons a rest ih =>
    unfold parseFloatsAux parseFieldsSpec
    cases hpf : parseFloat (trimSpace a) with
    | none => rfl
    | some x =>
      rw [ih]
      cases hm : parseFieldsSpec rest <;> simp

/-- The extension scanner returns the empty list or a dot followed by some
characters ending in the starting accumulator. -/
theorem extRevAux_shape :
    ∀ cs acc : List Char,
      extRevAux cs acc = [] ∨ ∃ ds, extRevAux cs acc = '.' :: (ds ++ acc) := by
  intro cs
  induction cs with
  | nil => exact fun acc => Or.inl rfl
  | cons c rest ih =>
    intro acc
    unfold extRevAux
    by_cases h1 : c = '/'
    · left; simp [h1]
    by_cases h2 : c = '.'
    · right; exact ⟨[], by simp [h1, h2]⟩
    rcases ih (c :: acc) with h | ⟨ds, hds⟩
    · left; simpa [h1, h2] using h
    · right
      refine ⟨ds ++ [c], ?_⟩
      simp [h1, h2, hds, List.append_assoc]

/-- A path obtained by appending the journal suffix never has the .mbtiles
extension. -/
theorem journal_ext_ne (p : String) : filepathExt (p ++ "-journal") ≠ ".mbtiles" := by
  unfold filepathExt
  intro hcontra
  have h0 : ("-journal".toList).reverse = ['l', 'a', 'n', 'r', 'u', 'o', 'j', '-'] := by decide
  have h1 : (p ++ "-journal").toList.reverse =
      ['l', 'a', 'n', 'r', 'u', 'o', 'j', '-'] ++ p.toList.reverse := by
    rw [← h0, ← List.reverse_append]
    congr 1
  rw [h1] at hcontra
  have h2 : extRevAux (['l', 'a', 'n', 'r', 'u', 'o', 'j', '-'] ++ p.toList.reverse) [] =
      extRevAux p.toList.reverse ['-', 'j', 'o', 'u', 'r', 'n', 'a', 'l'] := rfl
  rw [h2] at hcontra
  rcases extRevAux_shape p.toList.reverse ['-', 'j', 'o', 'u', 'r', 'n', 'a', 'l'] with h | ⟨ds, hds⟩
  · rw [h] at hcontra
    exact absurd hcontra (by decide)
  · rw [hds] at hcontra
    have hlen := congrArg (fun s : String => s.toList.length) hcontra
    simp [String.toList] at hlen

/-- A path with a sibling journal file in the filesystem is never returned by
FindMBtiles. -/
theorem findMBtiles_skips_journaled {fs : List String} {p : String}
    (hj : (p ++ "-journal") ∈ fs) : ∀ walk : List String, p ∉ findMBtiles fs walk := by
  intro walk
  induction walk with
  | nil => simp [findMBtiles]
  | cons q rest ih =>
    by_cases hq : (q ++ "-journal") ∈ fs
    · simpa [findMBtiles, hq] using ih
    by_cases he : filepathExt q = ".mbtiles"
    · have hstep : findMBtiles fs (q :: rest) = q :: findMBtiles fs rest := by
        simp [findMBtiles, hq, he]
      rw [hstep]
      intro hmem
      rcases List.mem_cons.mp hmem with rfl | hm
      · exact hq hj
      · exact ih hm
    · simpa [findMBtiles, hq, he] using ih

/-- A journal file itself is never returned by FindMBtiles. -/
theorem findMBtiles_no_journal (fs : List String) (q : String) :
    ∀ walk : List String, (q ++ "-journal") ∉ findMBtiles fs walk := by
  intro walk
  induction walk with
  | nil => simp [findMBtiles]
  | cons r rest ih =>
    by_cases hr : (r ++ "-journal") ∈ fs
    · simpa [findMBtiles, hr] using ih
    by_cases he : filepathExt r = ".mbtiles"
    · have hstep : findMBtiles fs (r :: rest) = r :: findMBtiles fs rest := by
        simp [findMBtiles, hr, he]
      rw [hstep]
      intro hmem
      rcases List.mem_cons.mp hmem with heq | hm
      · exact journal_ext_ne q (heq ▸ he)
      · exact ih hm
    · simpa [findMBtiles, hr, he] using ih

/-- C1 (amended): when minzoom or maxzoom is absent after the scan loop,
ReadMetadata queries the zoom range of the tiles table and assigns the
inferred minimum and maximum to BOTH keys, overwriting a directly-parsed
value of the other key as well; in particular a metadata table lacking both
keys over tiles only at zooms 3 and 9 yields minzoom=3 and maxzoom=9, and a
failing inference query (or an empty tiles table, whose NULL aggregates fail
to scan) returns the partially-decoded mapping with a nil error. -/
theorem C1_zoom_inference_amended (jp : JsonParse) (h : MBtiles) (p : Pool) (m : Metadata)
    (hp : h.pool = some p) (hopen : p.closed = false) (hq : p.d.metaQueryFails = false)
    (hloop : metaLoop jp p.d.metaRows "" "" [] = .ok m)
    (hmiss : ((lookupMeta m "minzoom").isSome && (lookupMeta m "maxzoom").isSome) = false) :
    (p.d.zoomQueryFails = true → readMetadata jp (some h) = .ok m) ∧
    (minMaxZoom p.d.tiles = none → readMetadata jp (some h) = .ok m) ∧
    (∀ mn mx : Int, p.d.zoomQueryFails = false → minMaxZoom p.d.tiles = some (mn, mx) →
      readMetadata jp (some h) =
        .ok (upsert (upsert m "minzoom" (.int mn)) "maxzoom" (.int mx))) := by
  refine ⟨?_, ?_, ?_⟩
  · intro hz
    simp [readMetadata, hp, hopen, hq, hloop, hmiss, hz]
  · intro hmm
    cases hz : p.d.zoomQueryFails <;>
      simp [readMetadata, hp, hopen, hq, hloop, hmiss, hz, hmm]
  · intro mn mx hz hmm
    simp [readMetadata, hp, hopen, hq, hloop, hmiss, hz, hmm]

/-- C1 witness: a metadata table lacking both zoom keys over tiles at zooms
3 and 9 decodes to minzoom=3 and maxzoom=9. -/
theorem C1_zoom_inference_witness :
    readMetadata jp0 (some hZoomBoth) =
      .ok [("minzoom", MetaValue.int 3), ("maxzoom", MetaValue.int 9)] :=
  (C1_zoom_inference_amended jp0 hZoomBoth { d := dbZoomBoth, closed := false } []
    rfl rfl rfl rfl rfl).2.2 3 9 rfl (by decide)

/-- C1 counterexample: a directly-parsed minzoom of 5 is NOT left unchanged
when maxzoom is missing; the inference overwrites it with the tile minimum 3,
contradicting the claim that only the missing value is inferred. -/
theorem C1_zoom_inference_counterexample :
    metaLoop jp0 dbZoomInfer.metaRows "" "" [] = .ok [("minzoom", MetaValue.int 5)] ∧
    readMetadata jp0 (some hZoomInfer) =
      .ok [("minzoom", MetaValue.int 3), ("maxzoom", MetaValue.int 9)] ∧
    lookupMeta [("minzoom", MetaValue.int 3), ("maxzoom", MetaValue.int 9)] "minzoom" ≠
      some (MetaValue.int 5) := by
  refine ⟨by decide, by decide, by decide⟩

/-- C2 (amended): after Close, ReadTile and ReadMetadata do fail, but with
the driver's statement-closed and database-closed errors, not the
ClosedHandle error: Close leaves the statement and pool fields of the handle
set, and the ClosedHandle error is produced exactly for a nil handle or a
handle whose statement (for ReadTile) or pool (for ReadMetadata) field was
never populated. -/
theorem C2_closed_handle_amended (env : OpenEnv) (path : String) (h : MBtiles)
    (ev : List Event) (jp : JsonParse) (z x y : Int)
    (hopen : openGo env path = (.ok h, ev)) :
    readTile (some (closeSome h)) z x y = .error .stmtClosed ∧
    readMetadata jp (some (closeSome h)) = .error .dbClosed ∧
    Err.stmtClosed ≠ Err.closedHandle ∧
    Err.dbClosed ≠ Err.closedHandle ∧
    readTile none z x y = .error .closedHandle ∧
    readMetadata jp none = .error .closedHandle ∧
    (∀ h2 : MBtiles, h2.tileStmt = none → readTile (some h2) z x y = .error .closedHandle) ∧
    (∀ h2 : MBtiles, h2.pool = none → readMetadata jp (some h2) = .error .closedHandle) := by
  obtain ⟨fs, hfs, rfl⟩ := openGo_ok_inv hopen
  refine ⟨?_, ?_, by decide, by decide, rfl, rfl, ?_, ?_⟩
  · simp [closeSome, readTile]
  · simp [closeSome, readMetadata]
  · intro h2 hs2
    simp [readTile, hs2]
  · intro h2 hp2
    simp [readMetadata, hp2]

/-- C2 witness: concrete open-then-close reads fail with the driver errors. -/
theorem C2_closed_handle_witness :
    readTile (some (closeSome hFix)) 1 2 3 = .error .stmtClosed ∧
    readMetadata jp0 (some (closeSome hFix)) = .error .dbClosed :=
  ⟨(C2_closed_handle_amended envFix "a.mbtiles" hFix
      [.statPath, .statJournal, .driverOpen, .validateQ, .sniffQ, .prepareQ] jp0 1 2 3
      (by decide)).1,
   (C2_closed_handle_amended envFix "a.mbtiles" hFix
      [.statPath, .statJournal, .driverOpen, .validateQ, .sniffQ, .prepareQ] jp0 1 2 3
      (by decide)).2.1⟩

/-- C2 counterexample: on a successfully opened and then closed handle, the
reads fail with the driver errors, which differ from the ClosedHandle error
the claim requires. -/
theorem C2_closed_handle_counterexample :
    (openGo envFix "a.mbtiles").1 = .ok hFix ∧
    close (some hFix) = .ok (closeSome hFix) ∧
    readTile (some (closeSome hFix)) 0 0 0 = .error .stmtClosed ∧
    readMetadata jp0 (some (closeSome hFix)) = .error .dbClosed ∧
    Err.stmtClosed ≠ Err.closedHandle ∧
    Err.dbClosed ≠ Err.closedHandle := by
  refine ⟨by decide, by decide, by decide, by decide, by decide, by decide⟩

/-- C3: on an open handle, ReadTile has exactly two success outcomes — the
payload of the first matching row with a nil error, or an absent (none)
payload with a nil error when no row matches — and a query failure is
surfaced as an error, never as absence. -/
theorem C3_readTile_outcomes (h : MBtiles) (stmt : Stmt) (z x y : Int)
    (hs : h.tileStmt = some stmt) (hopen : stmt.closed = false) :
    (stmt.d.tileQueryFails = false →
      readTile (some h) z x y =
        .ok ((stmt.d.tiles.find?
          (fun t => t.zoom == z && t.col == x && t.row == y)).map TileRow.data)) ∧
    (stmt.d.tileQueryFails = true → readTile (some h) z x y = .error .queryError) ∧
    (∀ t : TileRow, stmt.d.tileQueryFails = false →
      stmt.d.tiles.find? (fun t => t.zoom == z && t.col == x && t.row == y) = some t →
      readTile (some h) z x y = .ok (some t.data)) ∧
    (stmt.d.tileQueryFails = false →
      stmt.d.tiles.find? (fun t => t.zoom == z && t.col == x && t.row == y) = none →
      readTile (some h) z x y = .ok none) := by
  refine ⟨?_, ?_, ?_, ?_⟩
  · intro hq
    cases hf : stmt.d.tiles.find? (fun t => t.zoom == z && t.col == x && t.row == y) <;>
      simp [readTile, hs, hopen, hq, hf]
  · intro hq
    simp [readTile, hs, hopen, hq]
  · intro t hq hf
    simp [readTile, hs, hopen, hq, hf]
  · intro hq hf
    simp [readTile, hs, hopen, hq, hf]

/-- C3 witness: the fixture tile is returned at its coordinate, and a
coordinate with no row yields an absent payload with a nil error. -/
theorem C3_readTile_outcomes_witness :
    readTile (some hFix) 0 0 0 = .ok (some gzipBytes) ∧
    readTile (some hFix) 5 5 5 = .ok none :=
  ⟨(C3_readTile_outcomes hFix { d := dbFix, closed := false } 0 0 0 rfl rfl).2.2.1
      { zoom := 0, col := 0, row := 0, data := gzipBytes } rfl (by decide),
   (C3_readTile_outcomes hFix { d := dbFix, closed := false } 5 5 5 rfl rfl).2.2.2
      rfl (by decide)⟩

/-- C4: a tile payload whose leading bytes are the gzip magic signature is
classified GZIP by the sniffer and reclassified to PBF by both
getTileFormat and getTileFormatAndSize before being stored on the handle;
the stored format is never the GZIP classification. -/
theorem C4_gzip_pbf (d : DB) (t : TileRow) (rest : List Nat)
    (ht : d.tiles.head? = some t) (hdata : t.data = 0x1F :: 0x8B :: rest) :
    detectTileFormat t.data = some .GZIP ∧
    getTileFormat d = .ok .PBF ∧
    getTileFormatAndSize d = .ok (.PBF, 0) ∧
    TileFormat.PBF ≠ TileFormat.GZIP := by
  have hdet : detectTileFormat t.data = some .GZIP := by rw [hdata]; rfl
  refine ⟨hdet, ?_, ?_, by decide⟩
  · simp [getTileFormat, ht, hdet]
  · simp [getTileFormatAndSize, ht, hdet, detectTileSize]

/-- C4 witness: the gzip fixture payload is detected as GZIP and stored as
PBF with size 0. -/
theorem C4_gzip_pbf_witness :
    detectTileFormat gzipBytes = some .GZIP ∧
    getTileFormatAndSize dbFix = .ok (.PBF, 0) :=
  ⟨(C4_gzip_pbf dbFix { zoom := 0, col := 0, row := 0, data := gzipBytes } [0x08]
      rfl rfl).1,
   (C4_gzip_pbf dbFix { zoom := 0, col := 0, row := 0, data := gzipBytes } [0x08]
      rfl rfl).2.2.1⟩

/-- C5 (amended): structural validation counts the sqlite_master entries
named tiles or metadata (of any object type, with multiplicity) and succeeds
exactly when that count is at least 2.  When all schema-object names are
distinct this coincides with both names being present — in particular a
master list containing tiles but nothing else named tiles or metadata fails
with InvalidContainer — but duplicate names (for example a table and a
trigger both named tiles) satisfy the check without any metadata table, so
the count test is not equivalent to the existence of both tables.  No other
structural checks are performed. -/
theorem C5_validation_amended (d : DB) (hq : d.masterQueryFails = false) :
    (validateRequiredTables d = .ok () ↔
      2 ≤ (d.master.filter (fun n => n == "tiles" || n == "metadata")).length) ∧
    ("tiles" ∈ d.master → "metadata" ∈ d.master → validateRequiredTables d = .ok ()) ∧
    (d.master.Nodup →
      (validateRequiredTables d = .ok () ↔
        "tiles" ∈ d.master ∧ "metadata" ∈ d.master)) := by
  have h1 : validateRequiredTables d =
      if (d.master.filter (fun n => n == "tiles" || n == "metadata")).length < 2 then
        Except.error Err.invalidContainer
      else Except.ok () := by
    simp [validateRequiredTables, hq]
  have hiff : validateRequiredTables d = .ok () ↔
      2 ≤ (d.master.filter (fun n => n == "tiles" || n == "metadata")).length := by
    rw [h1]
    by_cases hlen :
        (d.master.filter (fun n => n == "tiles" || n == "metadata")).length < 2
    · simp [hlen]
    · simp [hlen]
      omega
  have hboth : "tiles" ∈ d.master → "metadata" ∈ d.master →
      validateRequiredTables d = .ok () := by
    intro ht hm
    apply hiff.mpr
    have htf : "tiles" ∈ d.master.filter (fun n => n == "tiles" || n == "metadata") :=
      List.mem_filter.mpr ⟨ht, by decide⟩
    have hmf : "metadata" ∈ d.master.filter (fun n => n == "tiles" || n == "metadata") :=
      List.mem_filter.mpr ⟨hm, by decide⟩
    exact two_mem_two_le_length htf hmf (by decide)
  refine ⟨hiff, hboth, ?_⟩
  intro hnd
  constructor
  · intro hok
    have hlen := hiff.mp hok
    constructor
    · by_contra hti
      have hall : ∀ x ∈ d.master.filter (fun n => n == "tiles" || n == "metadata"),
          x = "metadata" := by
        intro x hx
        obtain ⟨hxm, hpx⟩ := List.mem_filter.mp hx
        rcases (show x = "tiles" ∨ x = "metadata" by simpa using hpx) with rfl | rfl
        · exact absurd hxm hti
        · rfl
      have := nodup_all_eq_length_le_one (hnd.filter _) hall
      omega
    · by_contra hmi
      have hall : ∀ x ∈ d.master.filter (fun n => n == "tiles" || n == "metadata"),
          x = "tiles" := by
        intro x hx
        obtain ⟨hxm, hpx⟩ := List.mem_filter.mp hx
        rcases (show x = "tiles" ∨ x = "metadata" by simpa using hpx) with rfl | rfl
        · rfl
        · exact absurd hxm hmi
      have := nodup_all_eq_length_le_one (hnd.filter _) hall
      omega
  · intro hand
    exact hboth hand.1 hand.2

/-- C5 witness: with both required tables the validation succeeds; with only
a tiles table and distinct names it is equivalent to both being present. -/
theorem C5_validation_witness :
    validateRequiredTables dbFix = .ok () ∧
    ("tiles" ∈ dbFix.master ∧ "metadata" ∈ dbFix.master) :=
  ⟨(C5_validation_amended dbFix rfl).2.1 (by decide) (by decide), by decide, by decide⟩

/-- C5 counterexample: a master list with two schema objects named tiles and
no metadata object passes validation, and the whole Open succeeds, although
no metadata table exists — the claim required InvalidContainer here. -/
theorem C5_validation_counterexample :
    validateRequiredTables dbDup = .ok () ∧
    "metadata" ∉ dbDup.master ∧
    (openGo envDup "b.mbtiles").1 = .ok hDup := by
  refine ⟨by decide, by decide, by decide⟩

/-- C6 (amended): the timestamp accessor returns the container modification
time rounded to the NEAREST whole second — below the half-second boundary it
equals the truncation the claim states, at or above it the value is the
truncation plus one second — and the value is fixed at open time and
unchanged by Close. -/
theorem C6_timestamp_amended (env : OpenEnv) (path : String) (h : MBtiles)
    (ev : List Event) (hopen : openGo env path = (.ok h, ev)) :
    GetTimestamp h = timeRound env.modNs nsPerSecond ∧
    GetTimestamp (closeSome h) = GetTimestamp h ∧
    (2 * (env.modNs % nsPerSecond) < nsPerSecond →
      GetTimestamp h = truncToSecond env.modNs) ∧
    (nsPerSecond ≤ 2 * (env.modNs % nsPerSecond) →
      GetTimestamp h = truncToSecond env.modNs + nsPerSecond) := by
  obtain ⟨fs, hfs, rfl⟩ := openGo_ok_inv hopen
  refine ⟨rfl, rfl, ?_, ?_⟩
  · intro hlt
    show timeRound env.modNs nsPerSecond = truncToSecond env.modNs
    simp only [timeRound, truncToSecond]
    rw [if_pos hlt]
  · intro hge
    show timeRound env.modNs nsPerSecond = truncToSecond env.modNs + nsPerSecond
    simp only [timeRound, truncToSecond]
    rw [if_neg (by omega)]
    ring

/-- C6 witness: the fixture handle carries the rounded open-time stamp and
Close leaves it unchanged. -/
theorem C6_timestamp_witness :
    GetTimestamp hFix = timeRound envFix.modNs nsPerSecond ∧
    GetTimestamp (closeSome hFix) = GetTimestamp hFix :=
  ⟨(C6_timestamp_amended envFix "a.mbtiles" hFix
      [.statPath, .statJournal, .driverOpen, .validateQ, .sniffQ, .prepareQ]
      (by decide)).1,
   (C6_timestamp_amended envFix "a.mbtiles" hFix
      [.statPath, .statJournal, .driverOpen, .validateQ, .sniffQ, .prepareQ]
      (by decide)).2.1⟩

/-- C6 counterexample: a modification time of 1.6 seconds is stored as
2 seconds (rounded to nearest), not the 1 second truncation the claim
states. -/
theorem C6_timestamp_counterexample :
    (openGo envFix "a.mbtiles").1 = .ok hFix ∧
    GetTimestamp hFix = 2000000000 ∧
    truncToSecond envFix.modNs = 1000000000 ∧
    GetTimestamp hFix ≠ truncToSecond envFix.modNs := by
  refine ⟨by decide, by decide, by decide, by decide⟩

/-- C7 (amended): Close never returns an error and is idempotent and safe on
every non-nil handle, including one none of whose fields were ever populated;
but a failed Open returns a nil handle, and Close on a nil handle has no
guard and dereferences nil, so the claim's failed-Open cleanup case panics
instead of being safe. -/
theorem C7_close_amended (h : MBtiles) :
    close (some h) = .ok (closeSome h) ∧
    closeSome (closeSome h) = closeSome h ∧
    close (some { filename := h.filename, pool := none, tileStmt := none,
                  format := h.format, timestamp := h.timestamp, tilesize := h.tilesize }) =
      .ok { filename := h.filename, pool := none, tileStmt := none,
            format := h.format, timestamp := h.timestamp, tilesize := h.tilesize } := by
  refine ⟨rfl, ?_, rfl⟩
  cases h with
  | mk fn pool stmt fmt ts sz => cases pool <;> cases stmt <;> rfl

/-- C7 counterexample: Open on a missing path returns an error and no
handle, and Close on the resulting nil handle panics rather than being a
safe no-op. -/
theorem C7_close_counterexample :
    (openGo envFix "missing.mbtiles").1 = .error (.notFound "missing.mbtiles") ∧
    close none = .panic :=
  ⟨by decide, rfl⟩

/-- C8: a container path with a sibling journal file is excluded entirely by
FindMBtiles, the journal file itself is never returned, and Open on that
path fails with IncompleteContainer without attempting a driver-level
open. -/
theorem C8_journal_exclusion (walk fs : List String) (p : String) (env : OpenEnv)
    (hj : (p ++ "-journal") ∈ fs) (henv : env.fsFiles = fs) (hin : p ∈ fs) :
    p ∉ findMBtiles fs walk ∧
    (p ++ "-journal") ∉ findMBtiles fs walk ∧
    (openGo env p).1 = .error .incompleteContainer ∧
    Event.driverOpen ∉ (openGo env p).2 := by
  have hopen : openGo env p = (.error .incompleteContainer, [.statPath, .statJournal]) := by
    unfold openGo
    rw [henv]
    rw [if_neg (not_not_intro hin), if_pos hj]
  refine ⟨findMBtiles_skips_journaled hj walk, findMBtiles_no_journal fs p walk, ?_, ?_⟩
  · rw [hopen]
  · rw [hopen]
    decide

/-- C8 witness: the fixture directory with a journaled container excludes it
from location results and Open refuses it before touching the driver. -/
theorem C8_journal_exclusion_witness :
    "a.mbtiles" ∉ findMBtiles ["a.mbtiles", "a.mbtiles-journal"]
      ["a.mbtiles", "a.mbtiles-journal"] ∧
    (openGo envJournal "a.mbtiles").1 = .error .incompleteContainer :=
  ⟨(C8_journal_exclusion ["a.mbtiles", "a.mbtiles-journal"]
      ["a.mbtiles", "a.mbtiles-journal"] "a.mbtiles" envJournal
      (by decide) rfl (by decide)).1,
   (C8_journal_exclusion ["a.mbtiles", "a.mbtiles-journal"]
      ["a.mbtiles", "a.mbtiles-journal"] "a.mbtiles" envJournal
      (by decide) rfl (by decide)).2.2.1⟩

/-- C9: bounds and center values are split on commas, each field trimmed and
parsed as a float, order preserved: the value "-1.5, 2.25,10,-3" decodes to
the exact sequence [-1.5, 2.25, 10, -3]; parseFloats is the field-wise
trim-then-parse map over the comma-split fields with the first failure
fatal, and a bounds row whose value fails to parse makes the whole
ReadMetadata scan loop return an error. -/
theorem C9_bounds_parsing (jp : JsonParse) (s str : String) (rows : List MetaRow)
    (k v : String) (m : Metadata) (e : Err) :
    parseFloats "-1.5, 2.25,10,-3" = .ok [-(3 / 2 : Rat), 9 / 4, 10, -3] ∧
    (parseFloats str =
      match parseFieldsSpec (splitComma str) with
      | some xs => Except.ok xs
      | none => Except.error (Err.decodeError str)) ∧
    (MetaRow.scanOk "bounds" s ∈ rows → parseFloats s = .error e →
      ∃ e2, metaLoop jp rows k v m = .error e2) ∧
    readMetadata jp0 (some hBounds) =
      .ok [("bounds", MetaValue.floats [-(3 / 2 : Rat), 9 / 4, 10, -3]),
           ("minzoom", MetaValue.int 0), ("maxzoom", MetaValue.int 0)] := by
  have hc : parseFloats "-1.5, 2.25,10,-3" =
      .ok [Rat.divInt (-3) 2, Rat.divInt 9 4, Rat.divInt 10 1, Rat.divInt (-3) 1] := by
    decide
  have hvals : ([Rat.divInt (-3) 2, Rat.divInt 9 4, Rat.divInt 10 1, Rat.divInt (-3) 1] :
      List Rat) = [-(3 / 2 : Rat), 9 / 4, 10, -3] := by
    norm_num [Rat.divInt_eq_div]
  refine ⟨by rw [hc, hvals], parseFloatsAux_eq_spec str (splitComma str), ?_, ?_⟩
  · intro hmem hbad
    exact metaLoop_error_of_bad_bounds jp rows k v s m e hmem hbad
  · have hb : readMetadata jp0 (some hBounds) =
        .ok [("bounds", MetaValue.floats
               [Rat.divInt (-3) 2, Rat.divInt 9 4, Rat.divInt 10 1, Rat.divInt (-3) 1]),
             ("minzoom", MetaValue.int 0), ("maxzoom", MetaValue.int 0)] := by
      decide
    rw [hb, hvals]

/-- C9 witness: the concrete bounds value decodes in order, and a malformed
bounds row makes the scan loop fail. -/
theorem C9_bounds_parsing_witness :
    parseFloats "-1.5, 2.25,10,-3" = .ok [-(3 / 2 : Rat), 9 / 4, 10, -3] ∧
    (∃ e2, metaLoop jp0 [MetaRow.scanOk "bounds" "oops"] "" "" [] = .error e2) :=
  ⟨(C9_bounds_parsing jp0 "oops" "x" [MetaRow.scanOk "bounds" "oops"] "" "" []
      (Err.decodeError "oops")).1,
   (C9_bounds_parsing jp0 "oops" "x" [MetaRow.scanOk "bounds" "oops"] "" "" []
      (Err.decodeError "oops")).2.2.1 (by decide) (by decide)⟩

/-- C10: the scan loop ignores the result of scanning a row — a row whose
scan fails is processed exactly like a successful scan of the key and value
left over from the previously scanned row (empty strings before any row
scans), such a row never makes the call return an error when the
successfully scanned rows decode, and on a table whose only row fails to
scan ReadMetadata succeeds, storing the leftover empty strings. -/
theorem C10_scan_ignored (jp : JsonParse) (rows : List MetaRow) (k v : String)
    (m : Metadata) :
    metaLoop jp (MetaRow.scanFail :: rows) k v m =
      metaLoop jp (MetaRow.scanOk k v :: rows) k v m ∧
    (decodeOk jp k v = true →
      (∀ k2 v2, MetaRow.scanOk k2 v2 ∈ rows → decodeOk jp k2 v2 = true) →
      ∃ m2, metaLoop jp rows k v m = .ok m2) ∧
    readMetadata jp0 (some hAllFail) = .ok [("", MetaValue.str "")] := by
  refine ⟨rfl, ?_, by decide⟩
  intro hkv hall
  exact metaLoop_ok_of_all_ok jp rows k v m hkv hall

/-- C10 witness: a failing scan after a successful one reprocesses the
previous pair and the loop still succeeds. -/
theorem C10_scan_ignored_witness :
    ∃ m2, metaLoop jp0 [MetaRow.scanOk "name" "x", MetaRow.scanFail] "" "" [] = .ok m2 :=
  (C10_scan_ignored jp0 [MetaRow.scanOk "name" "x", MetaRow.scanFail] "" "" []).2.1
    (by decide)
    (by
      intro k2 v2 hm
      have h2 : MetaRow.scanOk k2 v2 = MetaRow.scanOk "name" "x" := by
        rcases List.mem_cons.mp hm with h | h
        · exact h
        · exact absurd (List.mem_singleton.mp h) (by simp)
      cases h2
      decide)

end Mbtiles
